import Mathlib

/-!
Verification of the unsubmail sender-analysis and cleanup-planning core.

This file shallowly embeds the Rust sources of the repository:
  * src/domain/analysis.rs   (header parsing, one-click detection, scoring, resolution)
  * src/domain/models.rs     (UnsubscribeMethod, SenderInfo, ActionType, CleanupAction)
  * src/domain/planner.rs    (plan_action)
  * src/infrastructure/imap/fetch.rs (MessageHeader, extract_email, group_by_sender)
  * src/cli/interactive.rs   (scan_inbox sender construction)
  * src/infrastructure/google/gmail_api.rs (batch_get_headers retry loop)

Modelling conventions:
  * Rust `String`/`&str` are Lean `String`, manipulated through their `List Char`
    data so that every operation reduces in the kernel.  Byte indices returned by
    `str::find('<')` / `str::find('>')` are compared only against each other; since
    both patterns are one-byte ASCII characters the byte-index order coincides with
    the character-index order, so the character-level model is faithful.
  * `to_lowercase` is modelled with `Char.toLower` (ASCII case folding).  Every
    string the source compares against after lowering ("one-click" and the keyword
    list) is ASCII, and all concrete inputs in the claims are ASCII.
  * `f32` scores are embedded as exact rationals.  Every score the source can
    produce is a sum of at most four addends from {0.5, 0.3, 0.2}; for all such
    sums the f32 comparisons performed by the source and by the claims
    (`> 0.5`, `<= 0.5`, `= 0.5`, `> 1.0`, `= 1.3`) agree with exact arithmetic,
    because each partial f32 sum rounds to the f32 nearest the exact value and
    never crosses one of those thresholds.
  * A Rust panic is modelled by `Option.none`: `extract_email` slices
    `from[start+1..end]`, which panics when `end < start + 1`, so the embedded
    `extract_email` returns `none` exactly on those inputs and the functions built
    on top of it propagate the `none`.
  * Recursions that Rust drives by mutation are given explicit fuel equal to an
    upper bound on the number of loop iterations (string length, or the retry
    bound); every fuel-out branch is unreachable for the wrapper's chosen fuel.
-/

/-- Decide whether the character list `pat` occurs as a contiguous sublist of
`cs`; this models Rust `str::contains` for literal patterns. -/
def list_contains_sub (pat : List Char) : List Char → Bool
  | [] => pat.isEmpty
  | c :: cs => pat.isPrefixOf (c :: cs) || list_contains_sub pat cs

/-- Rust `haystack.contains(pat)` for string literals. -/
def str_contains (haystack pat : String) : Bool :=
  list_contains_sub pat.toList haystack.toList

/-- Rust `str::to_lowercase`, restricted to ASCII case folding (see header note). -/
def lower_str (s : String) : String :=
  String.mk (s.toList.map Char.toLower)

/-- Rust `str::trim` (whitespace stripped from both ends), on the character data. -/
def trim_str (s : String) : String :=
  String.mk (((s.toList.dropWhile Char.isWhitespace).reverse.dropWhile Char.isWhitespace).reverse)

/-- Rust `str::replace(pat, repl)`: replace every non-overlapping occurrence of
`pat`, scanning left to right.  Fuel bounds the number of examined characters. -/
def replace_all_aux (pat repl : List Char) : ℕ → List Char → List Char
  | 0, cs => cs
  | _, [] => []
  | fuel + 1, c :: cs =>
    if pat.isPrefixOf (c :: cs) then
      repl ++ replace_all_aux pat repl fuel ((c :: cs).drop pat.length)
    else
      c :: replace_all_aux pat repl fuel cs

/-- Rust `s.replace(pat, repl)` (used with the non-empty pattern "mailto:"). -/
def replace_all (s pat repl : String) : String :=
  String.mk (replace_all_aux pat.toList repl.toList s.toList.length s.toList)

/-- Rust `s.split(sep)` for a one-character separator: the list of chunks between
occurrences of `sep` (an empty input yields one empty chunk, as in Rust). -/
def split_on_char (sep : Char) : List Char → List (List Char)
  | [] => [[]]
  | c :: rest =>
    if c = sep then
      [] :: split_on_char sep rest
    else
      match split_on_char sep rest with
      | [] => [[c]]
      | p :: ps => (c :: p) :: ps

/-- src/domain/analysis.rs lines 10-18: the regex is built once from
`<(https?://[^>]+)>`.  `match_url_at` models one attempt of that regex at a
position just after a literal `<`: the scheme alternation `https?://` (greedy, so
`https` is tried before `http`), then `[^>]+` (at least one non-`>` character),
then a closing `>`.  On success it returns the captured group together with the
remaining input after the match. -/
def match_url_at (cs : List Char) : Option (List Char × List Char) :=
  let scheme? : Option (List Char × List Char) :=
    match cs with
    | 'h' :: 't' :: 't' :: 'p' :: 's' :: ':' :: '/' :: '/' :: rest =>
        some ("https://".toList, rest)
    | 'h' :: 't' :: 't' :: 'p' :: ':' :: '/' :: '/' :: rest =>
        some ("http://".toList, rest)
    | _ => none
  match scheme? with
  | none => none
  | some (scheme, rest) =>
    let body := rest.takeWhile (fun c => c ≠ '>')
    match rest.dropWhile (fun c => c ≠ '>') with
    | '>' :: rest2 => if body.isEmpty then none else some (scheme ++ body, rest2)
    | _ => none

/-- `Regex::captures_iter` over `<(https?://[^>]+)>`: scan left to right, emitting
each leftmost non-overlapping match's capture group and resuming after the
consumed match (on failure the scan advances one character).  Fuel is the input
length; every step consumes at least one character. -/
def scan_urls_aux : ℕ → List Char → List (List Char)
  | 0, _ => []
  | _, [] => []
  | fuel + 1, c :: rest =>
    if c = '<' then
      match match_url_at rest with
      | some (url, rest2) => url :: scan_urls_aux fuel rest2
      | none => scan_urls_aux fuel rest
    else
      scan_urls_aux fuel rest

/-- src/domain/analysis.rs `parse_list_unsubscribe` (lines 10-18): collect the
capture groups of `<(https?://[^>]+)>` over the header. -/
def parse_list_unsubscribe (header : String) : List String :=
  (scan_urls_aux header.toList.length header.toList).map String.mk

/-- src/domain/analysis.rs `detect_one_click` (lines 23-27). -/
def detect_one_click (header : Option String) : Bool :=
  match header with
  | some h => str_contains (lower_str h) "one-click"
  | none => false

/-- src/domain/analysis.rs lines 49-59: the fixed newsletter keyword array. -/
def newsletter_patterns : List String :=
  ["newsletter", "noreply", "no-reply", "notification", "promo", "marketing",
   "news@", "info@", "updates@"]

/-- src/domain/analysis.rs `calculate_heuristic_score` (lines 39-80), with the
f32 accumulator embedded as an exact rational (see the header note for why the
comparisons agree). -/
def calculate_heuristic_score (email : String) (has_unsubscribe : Bool)
    (message_count : ℕ) : ℚ :=
  let score : ℚ := if has_unsubscribe then 1/2 else 0
  let email_lower := lower_str email
  let score :=
    if newsletter_patterns.any (fun p => str_contains email_lower p) then
      score + 3/10
    else score
  let score := if 10 < message_count then score + 1/5 else score
  let score := if 30 < message_count then score + 3/10 else score
  if has_unsubscribe = false ∧ 1/2 < score then 1/2 else score

/-- src/domain/models.rs `UnsubscribeMethod` (lines 43-55). -/
inductive UnsubscribeMethod where
  | OneClick (url : String)
  | HttpLink (url : String)
  | Mailto (address : String)
  | None
deriving DecidableEq

/-- src/domain/models.rs `UnsubscribeMethod::is_one_click` (lines 59-61). -/
def UnsubscribeMethod.is_one_click : UnsubscribeMethod → Bool
  | .OneClick _ => true
  | _ => false

/-- src/domain/models.rs `UnsubscribeMethod::is_available` (lines 64-66). -/
def UnsubscribeMethod.is_available : UnsubscribeMethod → Bool
  | .None => false
  | _ => true

/-- src/domain/analysis.rs lines 93-96: `list_unsubscribe.as_ref().map(parse_list_unsubscribe).unwrap_or_default()`. -/
def unsubscribe_urls_of (list_unsubscribe : Option String) : List String :=
  match list_unsubscribe with
  | some h => parse_list_unsubscribe h
  | none => []

/-- src/domain/analysis.rs lines 93-134: the unsubscribe-method resolution block
of `analyze_sender` (the spec calls this function `resolve_unsubscribe`),
covering the OneClick / HttpLink / Mailto / None priority chain including the
mailto extraction `header.split('<').find(contains "mailto:").split('>').next().replace("mailto:", "")`. -/
def resolve_unsubscribe (list_unsubscribe list_unsubscribe_post : Option String) :
    UnsubscribeMethod :=
  let unsubscribe_urls := unsubscribe_urls_of list_unsubscribe
  let has_one_click := detect_one_click list_unsubscribe_post
  if has_one_click then
    match unsubscribe_urls with
    | url :: _ => .OneClick url
    | [] => .None
  else
    match unsubscribe_urls with
    | url :: _ => .HttpLink url
    | [] =>
      match list_unsubscribe with
      | some header =>
        if str_contains header "mailto:" then
          let piece :=
            ((split_on_char '<' header.toList).find?
              (fun s => list_contains_sub "mailto:".toList s)).getD []
          let upto := piece.takeWhile (fun c => c ≠ '>')
          .Mailto (replace_all (String.mk upto) "mailto:" "")
        else .None
      | none => .None

/-- src/domain/models.rs `SenderInfo` (lines 18-39); the f32 score is a rational. -/
structure SenderInfo where
  email : String
  display_name : Option String
  message_count : ℕ
  message_uids : List ℕ
  unsubscribe_method : UnsubscribeMethod
  heuristic_score : ℚ
  sample_subjects : List String
deriving DecidableEq

/-- src/domain/analysis.rs `analyze_sender` (lines 83-149): resolution of the
unsubscribe method plus heuristic scoring (`list_unsubscribe.is_some()` feeds the
scorer's `has_unsubscribe`). -/
def analyze_sender (email : String) (display_name : Option String)
    (message_count : ℕ) (message_uids : List ℕ)
    (list_unsubscribe list_unsubscribe_post : Option String)
    (sample_subjects : List String) : SenderInfo :=
  { email := email
    display_name := display_name
    message_count := message_count
    message_uids := message_uids
    unsubscribe_method := resolve_unsubscribe list_unsubscribe list_unsubscribe_post
    heuristic_score :=
      calculate_heuristic_score email list_unsubscribe.isSome message_count
    sample_subjects := sample_subjects }

/-- src/domain/models.rs `ActionType` (lines 82-91). -/
inductive ActionType where
  | UnsubscribeAndDelete
  | SpamAndDelete
  | DeleteOnly
deriving DecidableEq

/-- src/domain/models.rs `CleanupAction` (lines 71-77). -/
structure CleanupAction where
  sender : SenderInfo
  action_type : ActionType
deriving DecidableEq

/-- src/domain/planner.rs `plan_action` (lines 10-21). -/
def plan_action (sender : SenderInfo) : CleanupAction :=
  { sender := sender
    action_type :=
      if sender.unsubscribe_method.is_one_click then
        ActionType.UnsubscribeAndDelete
      else
        ActionType.SpamAndDelete }

/-- The deletion step of each `ActionType`, read off the variant documentation in
src/domain/models.rs lines 82-91: UnsubscribeAndDelete = "unsubscribe via
one-click, then delete", SpamAndDelete = "move to spam, then delete",
DeleteOnly = "just delete". -/
def ActionType.includes_delete : ActionType → Bool
  | .UnsubscribeAndDelete => true
  | .SpamAndDelete => true
  | .DeleteOnly => true

/-- The unsubscribe step of each `ActionType` (same source comments). -/
def ActionType.includes_unsubscribe : ActionType → Bool
  | .UnsubscribeAndDelete => true
  | _ => false

/-- The block (move-to-spam) step of each `ActionType` (same source comments). -/
def ActionType.includes_block : ActionType → Bool
  | .SpamAndDelete => true
  | _ => false

/-- src/infrastructure/imap/fetch.rs `MessageHeader` (lines 11-18); the Rust
field `from` is a Lean keyword and is embedded as `fromAddr`. -/
structure MessageHeader where
  uid : ℕ
  fromAddr : String
  subject : String
  list_unsubscribe : Option String
  list_unsubscribe_post : Option String
deriving DecidableEq

instance : Inhabited MessageHeader :=
  ⟨{ uid := 0, fromAddr := "", subject := "",
     list_unsubscribe := none, list_unsubscribe_post := none }⟩

/-- src/infrastructure/imap/fetch.rs `extract_email` (lines 175-183).  The Rust
body slices `from[start+1..end]` where `start` is the byte index of the first
`<` and `end` the byte index of the first `>`; that slice panics when
`end < start + 1`, i.e. exactly when the first `>` precedes the first `<`.  The
panic is modelled as `none`; both delimiters are one-byte ASCII characters, so
byte-index order coincides with character-index order and the character-level
slice below is the byte slice of the source. -/
def extract_email (fromStr : String) : Option String :=
  let cs := fromStr.toList
  match cs.findIdx? (fun c => c = '<') with
  | some start =>
    match cs.findIdx? (fun c => c = '>') with
    | some stop =>
      if start + 1 ≤ stop then
        some (String.mk ((cs.drop (start + 1)).take (stop - (start + 1))))
      else
        none
    | none => some (trim_str fromStr)
  | none => some (trim_str fromStr)

/-- src/cli/interactive.rs `extract_display_name` (lines 222-230):
`from[..pos].trim().trim_matches('"')`, kept when non-empty. -/
def extract_display_name (fromStr : String) : Option String :=
  match fromStr.toList.findIdx? (fun c => c = '<') with
  | some pos =>
    let name := (trim_str (String.mk (fromStr.toList.take pos))).toList
    let name := ((name.dropWhile (fun c => c = '"')).reverse.dropWhile
      (fun c => c = '"')).reverse
    if name.isEmpty then none else some (String.mk name)
  | none => none

/-- The sender map of src/infrastructure/imap/fetch.rs `group_by_sender`,
embedded as an association list in key-insertion order (HashMap iteration order
is unspecified in the source; none of the verified statements depend on the
order of distinct senders). -/
abbrev SenderGroups := List (String × List MessageHeader)

/-- `acc.entry(email).or_insert_with(Vec::new).push(header)` (fetch.rs line 159):
append `h` to the existing group of `email`, or add a new singleton group. -/
def insert_grouped (email : String) (h : MessageHeader) : SenderGroups → SenderGroups
  | [] => [(email, [h])]
  | (k, ms) :: rest =>
    if k = email then (k, ms ++ [h]) :: rest
    else (k, ms) :: insert_grouped email h rest

/-- The fold of src/infrastructure/imap/fetch.rs `group_by_sender` (lines
154-168), sequentially over the input (a deterministic execution of the rayon
fold/reduce); `none` propagates an `extract_email` panic. -/
def group_by_sender_aux (acc : SenderGroups) : List MessageHeader → Option SenderGroups
  | [] => some acc
  | h :: rest =>
    match extract_email h.fromAddr with
    | none => none
    | some email => group_by_sender_aux (insert_grouped email h acc) rest

/-- src/infrastructure/imap/fetch.rs `group_by_sender` (lines 154-168). -/
def group_by_sender (headers : List MessageHeader) : Option SenderGroups :=
  group_by_sender_aux [] headers

/-- Association-list lookup on the sender map. -/
def lookup_group (email : String) : SenderGroups → Option (List MessageHeader)
  | [] => none
  | (k, ms) :: rest => if k = email then some ms else lookup_group email rest

/-- Total number of headers stored across all groups. -/
def total_size (gs : SenderGroups) : ℕ :=
  (gs.map (fun p => p.2.length)).sum

/-- src/cli/interactive.rs `scan_inbox`, lines 192-213: one `SenderInfo` per
group; `first` is `&messages[0]` (groups produced by `group_by_sender` are never
empty, so the `headD` default is never used). -/
def sender_from_group (email : String) (messages : List MessageHeader) : SenderInfo :=
  let first := messages.headD default
  analyze_sender email (extract_display_name first.fromAddr) messages.length
    (messages.map (fun m => m.uid)) first.list_unsubscribe
    first.list_unsubscribe_post ((messages.take 3).map (fun m => m.subject))

/-- src/cli/interactive.rs `scan_inbox` (lines 186-214): group the fetched
headers by sender and analyze each group (`none` propagates an `extract_email`
panic). -/
def scan_inbox (headers : List MessageHeader) : Option (List SenderInfo) :=
  (group_by_sender headers).map (fun gs => gs.map (fun p => sender_from_group p.1 p.2))

/-- The record built by `parse_message_headers` in
src/infrastructure/google/gmail_api.rs (lines 161-198).  The struct declaration
`domain::models::MessageHeaders` itself is referenced by gmail_api.rs but is not
under src/; its fields are reconstructed from the struct literal at lines
190-197 (id, from, subject, list_unsubscribe, list_unsubscribe_post, date), with
the `DateTime<Utc>` date embedded as an integer timestamp. -/
structure MessageHeaders where
  id : String
  fromAddr : String
  subject : Option String
  list_unsubscribe : Option String
  list_unsubscribe_post : Option String
  date : Option ℤ
deriving DecidableEq

/-- Outcome of one Gmail `messages_get` attempt for one message: either the
parsed headers, or an error whose display string is what the source inspects. -/
inductive FetchOutcome where
  | ok (header : MessageHeaders)
  | err (msg : String)

/-- src/infrastructure/google/gmail_api.rs lines 126-129: an error is retried
only when its display string contains "429", "503" or "timeout". -/
def is_transient_err (msg : String) : Bool :=
  str_contains msg "429" || str_contains msg "503" || str_contains msg "timeout"

/-- The retry loop of `batch_get_headers` (gmail_api.rs lines 103-142) for one
message.  `attempt_of n` is the outcome of the n-th fetch attempt (0-based).
State: `retries` (starts 0), `delay_ms` (starts 100, doubles after each sleep),
`max_retries = 3`.  The returned list records the sleeps performed, in order.
Fuel bounds loop iterations; with `max_retries = 3` the loop runs at most 4
iterations, so fuel 4 makes the fuel-out branch unreachable. -/
def fetch_with_retry_aux (attempt_of : ℕ → FetchOutcome) (max_retries : ℕ) :
    ℕ → ℕ → ℕ → Option MessageHeaders × List ℕ
  | _, _, 0 => (none, [])
  | retries, delay_ms, fuel + 1 =>
    match attempt_of retries with
    | .ok h => (some h, [])
    | .err e =>
      if retries < max_retries ∧ is_transient_err e = true then
        let r := fetch_with_retry_aux attempt_of max_retries (retries + 1) (delay_ms * 2) fuel
        (r.1, delay_ms :: r.2)
      else
        (none, [])

/-- One spawned fetch task of `batch_get_headers`: up to `max_retries = 3`
retries, first delay 100 ms. -/
def fetch_with_retry (attempt_of : ℕ → FetchOutcome) : Option MessageHeaders × List ℕ :=
  fetch_with_retry_aux attempt_of 3 0 100 4

/-- src/infrastructure/google/gmail_api.rs `batch_get_headers` (lines 82-157):
one retrying task per message id, results collected in task order with
`filter_map` (failed tasks yield `None` and are dropped), and the function
itself always returns `Ok` — the `Result` error case is never constructed.
Each message's attempts are abstracted by its oracle `ℕ → FetchOutcome`. -/
def batch_get_headers (attempts : List (ℕ → FetchOutcome)) :
    Except String (List MessageHeaders) :=
  Except.ok (attempts.filterMap (fun o => (fetch_with_retry o).1))

/-- Concrete header used in the order-dependence counterexample: carries an
unsubscribe URL. -/
def msgWithUnsub : MessageHeader :=
  { uid := 1, fromAddr := "a@b.c", subject := "s1",
    list_unsubscribe := some "<https://x/u>", list_unsubscribe_post := none }

/-- Concrete header from the same sender, without unsubscribe headers. -/
def msgNoUnsub : MessageHeader :=
  { uid := 2, fromAddr := "a@b.c", subject := "s2",
    list_unsubscribe := none, list_unsubscribe_post := none }

/-- Concrete header whose From field makes `extract_email` panic: the first `>`
(inside the quoted display name) precedes the first `<`. -/
def msgPanicFrom : MessageHeader :=
  { uid := 3, fromAddr := "\"A > B\" <a@b.c>", subject := "s3",
    list_unsubscribe := none, list_unsubscribe_post := none }

/-- Concrete header whose From field is the minimal panic input "><". -/
def msgGtBeforeLt : MessageHeader :=
  { uid := 4, fromAddr := "><", subject := "",
    list_unsubscribe := none, list_unsubscribe_post := none }

/-- Concrete per-message attempt oracle: every attempt fails with a
non-transient (non-429/503/timeout) error. -/
def oracleFatal : ℕ → FetchOutcome := fun _ => .err "401 Unauthorized"

/-- Concrete headers for evaluating the aggregation invariant: two senders,
three messages. -/
def demoHeaders : List MessageHeader :=
  [{ uid := 1, fromAddr := "John Doe <john@example.com>", subject := "hi",
     list_unsubscribe := none, list_unsubscribe_post := none },
   { uid := 2, fromAddr := "news@site.com", subject := "sale",
     list_unsubscribe := some "<https://site.com/u>",
     list_unsubscribe_post := some "List-Unsubscribe=One-Click" },
   { uid := 3, fromAddr := "John Doe <john@example.com>", subject := "re: hi",
     list_unsubscribe := none, list_unsubscribe_post := none }]

/-! Helper lemmas about the sender-aggregation fold.  These characterise
`insert_grouped` and `group_by_sender_aux` and are shared by the aggregation
claims below. -/

/-- Inserting a header under key `e` appends it to the existing group of `e`
(or starts a singleton group). -/
theorem lookup_insert_self (e : String) (h : MessageHeader) (acc : SenderGroups) :
    lookup_group e (insert_grouped e h acc) = some ((lookup_group e acc).getD [] ++ [h]) := by
  induction acc with
  | nil => simp [insert_grouped, lookup_group]
  | cons p rest ih =>
    obtain ⟨k, ms⟩ := p
    by_cases hk : k = e
    · subst hk; simp [insert_grouped, lookup_group]
    · simp [insert_grouped, lookup_group, hk, ih]

/-- Inserting under key `e` leaves every other key's group unchanged. -/
theorem lookup_insert_ne (e k : String) (hne : k ≠ e) (h : MessageHeader) (acc : SenderGroups) :
    lookup_group k (insert_grouped e h acc) = lookup_group k acc := by
  have hne2 : e ≠ k := Ne.symm hne
  induction acc with
  | nil => simp [insert_grouped, lookup_group, hne2]
  | cons p rest ih =>
    obtain ⟨k0, ms⟩ := p
    by_cases hk : k0 = e
    · subst hk; simp [insert_grouped, lookup_group, hne2]
    · simp [insert_grouped, lookup_group, hk, ih]

/-- Key set after an insertion: unchanged if the key was present, extended by
the new key otherwise. -/
theorem keys_insert_grouped (e : String) (h : MessageHeader) (acc : SenderGroups) :
    (insert_grouped e h acc).map Prod.fst
      = if e ∈ acc.map Prod.fst then acc.map Prod.fst else acc.map Prod.fst ++ [e] := by
  induction acc with
  | nil => simp [insert_grouped]
  | cons p rest ih =>
    obtain ⟨k, ms⟩ := p
    by_cases hk : k = e
    · subst hk; simp [insert_grouped]
    · by_cases hm : e ∈ rest.map Prod.fst <;>
        simp [insert_grouped, hk, ih, hm, Ne.symm hk]

/-- Insertion preserves distinctness of the keys. -/
theorem nodup_keys_insert (e : String) (h : MessageHeader) (acc : SenderGroups)
    (hnd : (acc.map Prod.fst).Nodup) :
    ((insert_grouped e h acc).map Prod.fst).Nodup := by
  rw [keys_insert_grouped]
  split_ifs with hm
  · exact hnd
  · simp [List.nodup_append, hnd, hm]

/-- Insertion preserves non-emptiness of every group. -/
theorem nonempty_groups_insert (e : String) (h : MessageHeader) :
    ∀ acc : SenderGroups, (∀ p ∈ acc, p.2 ≠ []) →
      ∀ p ∈ insert_grouped e h acc, p.2 ≠ [] := by
  intro acc
  induction acc with
  | nil =>
    intro _ p hp
    simp [insert_grouped] at hp
    subst hp; simp
  | cons q rest ih =>
    obtain ⟨k, ms⟩ := q
    intro hne p hp
    by_cases hk : k = e
    · subst hk
      simp only [insert_grouped, if_pos rfl] at hp
      rcases List.mem_cons.mp hp with hp | hp
      · subst hp; simp
      · exact hne p (List.mem_cons_of_mem _ hp)
    · simp only [insert_grouped, if_neg hk] at hp
      rcases List.mem_cons.mp hp with hp | hp
      · subst hp; exact hne (k, ms) (List.mem_cons_self _ _)
      · exact ih (fun q hq => hne q (List.mem_cons_of_mem _ hq)) p hp

/-- Each insertion grows the total number of stored headers by exactly one. -/
theorem total_size_insert (e : String) (h : MessageHeader) (acc : SenderGroups) :
    total_size (insert_grouped e h acc) = total_size acc + 1 := by
  induction acc with
  | nil => simp [insert_grouped, total_size]
  | cons p rest ih =>
    obtain ⟨k, ms⟩ := p
    by_cases hk : k = e
    · subst hk; simp [insert_grouped, total_size]; omega
    · simp [insert_grouped, hk, total_size] at ih ⊢; omega

/-- When every From field extracts, the fold completes (no panic). -/
theorem group_aux_some (l : List MessageHeader) :
    ∀ acc, (∀ h ∈ l, (extract_email h.fromAddr).isSome = true) →
      ∃ gs, group_by_sender_aux acc l = some gs := by
  induction l with
  | nil => intro acc _; exact ⟨acc, rfl⟩
  | cons h rest ih =>
    intro acc hok
    obtain ⟨e, he⟩ := Option.isSome_iff_exists.mp (hok h (by simp))
    simp only [group_by_sender_aux, he]
    exact ih _ (fun h2 hm => hok h2 (by simp [hm]))

/-- Content of each group after the fold: the accumulator's group followed by
the input headers whose extracted email is that key, in input order. -/
theorem group_aux_lookup (l : List MessageHeader) :
    ∀ acc gs, group_by_sender_aux acc l = some gs → ∀ k,
      (lookup_group k gs).getD []
        = (lookup_group k acc).getD []
            ++ l.filter (fun h => extract_email h.fromAddr == some k) := by
  induction l with
  | nil =>
    intro acc gs hg k
    simp only [group_by_sender_aux, Option.some.injEq] at hg
    subst hg; simp
  | cons h rest ih =>
    intro acc gs hg k
    cases he : extract_email h.fromAddr with
    | none => simp [group_by_sender_aux, he] at hg
    | some e =>
      simp only [group_by_sender_aux, he] at hg
      have H := ih (insert_grouped e h acc) gs hg k
      by_cases hk : k = e
      · subst hk
        rw [H, lookup_insert_self]
        simp [List.filter_cons, he, List.append_assoc]
      · have hek : ¬ ((extract_email h.fromAddr == some k) = true) := by
          simp [he]; exact fun x => hk x.symm
        rw [H, lookup_insert_ne e k hk]
        simp [List.filter_cons, hek]

/-- The fold preserves distinctness of group keys. -/
theorem group_aux_nodup (l : List MessageHeader) :
    ∀ acc gs, group_by_sender_aux acc l = some gs →
      (acc.map Prod.fst).Nodup → (gs.map Prod.fst).Nodup := by
  induction l with
  | nil =>
    intro acc gs hg hnd
    simp only [group_by_sender_aux, Option.some.injEq] at hg
    subst hg; exact hnd
  | cons h rest ih =>
    intro acc gs hg hnd
    cases he : extract_email h.fromAddr with
    | none => simp [group_by_sender_aux, he] at hg
    | some e =>
      simp only [group_by_sender_aux, he] at hg
      exact ih _ gs hg (nodup_keys_insert e h acc hnd)

/-- The fold preserves non-emptiness of every group. -/
theorem group_aux_nonempty (l : List MessageHeader) :
    ∀ acc gs, group_by_sender_aux acc l = some gs →
      (∀ p ∈ acc, p.2 ≠ []) → ∀ p ∈ gs, p.2 ≠ [] := by
  induction l with
  | nil =>
    intro acc gs hg hne
    simp only [group_by_sender_aux, Option.some.injEq] at hg
    subst hg; exact hne
  | cons h rest ih =>
    intro acc gs hg hne
    cases he : extract_email h.fromAddr with
    | none => simp [group_by_sender_aux, he] at hg
    | some e =>
      simp only [group_by_sender_aux, he] at hg
      exact ih _ gs hg (nonempty_groups_insert e h acc hne)

/-- The fold adds exactly one stored header per input header. -/
theorem group_aux_size (l : List MessageHeader) :
    ∀ acc gs, group_by_sender_aux acc l = some gs →
      total_size gs = total_size acc + l.length := by
  induction l with
  | nil =>
    intro acc gs hg
    simp only [group_by_sender_aux, Option.some.injEq] at hg
    subst hg; simp
  | cons h rest ih =>
    intro acc gs hg
    cases he : extract_email h.fromAddr with
    | none => simp [group_by_sender_aux, he] at hg
    | some e =>
      simp only [group_by_sender_aux, he] at hg
      have := ih _ gs hg
      rw [this, total_size_insert]
      simp; omega

/-- With distinct keys, association-list membership determines the lookup. -/
theorem lookup_of_mem : ∀ gs : SenderGroups, (gs.map Prod.fst).Nodup →
    ∀ (k : String) (ms : List MessageHeader), (k, ms) ∈ gs →
      lookup_group k gs = some ms := by
  intro gs
  induction gs with
  | nil => intro _ k ms hm; simp at hm
  | cons p rest ih =>
    obtain ⟨k0, ms0⟩ := p
    intro hnd k ms hm
    rw [List.map_cons] at hnd
    have hnd2 := List.nodup_cons.mp hnd
    rcases List.mem_cons.mp hm with heq | hmem
    · cases heq
      simp [lookup_group]
    · have hk : k0 ≠ k := by
        intro hkk
        subst hkk
        exact hnd2.1 (List.mem_map.mpr ⟨(k0, ms), hmem, rfl⟩)
      simp only [lookup_group, if_neg hk]
      exact ih hnd2.2 k ms hmem

/-- A successful lookup is a membership witness. -/
theorem mem_of_lookup : ∀ (gs : SenderGroups) (k : String) (ms : List MessageHeader),
    lookup_group k gs = some ms → (k, ms) ∈ gs := by
  intro gs
  induction gs with
  | nil => intro k ms hl; simp [lookup_group] at hl
  | cons p rest ih =>
    obtain ⟨k0, ms0⟩ := p
    intro k ms hl
    by_cases hk : k0 = k
    · subst hk
      simp [lookup_group] at hl
      subst hl
      exact List.mem_cons_self _ _
    · simp only [lookup_group, if_neg hk] at hl
      exact List.mem_cons_of_mem _ (ih k ms hl)

/-- Every group produced by `group_by_sender` is exactly the sublist of input
headers whose normalized email is the group key, in input order. -/
theorem group_member_filter (l : List MessageHeader) (gs : SenderGroups)
    (hg : group_by_sender l = some gs) (k : String) (ms : List MessageHeader)
    (hm : (k, ms) ∈ gs) :
    ms = l.filter fun h => extract_email h.fromAddr == some k := by
  have hnd := group_aux_nodup l [] gs hg (by simp)
  have hlk := lookup_of_mem gs hnd k ms hm
  have H := group_aux_lookup l [] gs hg k
  rw [hlk] at H
  simpa [lookup_group] using H

/-- Every sender record produced by `scan_inbox` counts exactly the input
headers whose normalized email is the sender's email. -/
theorem scan_member_count (l : List MessageHeader) (ss : List SenderInfo)
    (hs : scan_inbox l = some ss) (s : SenderInfo) (hm : s ∈ ss) :
    s.message_count = (l.filter fun h => extract_email h.fromAddr == some s.email).length := by
  cases hg : group_by_sender l with
  | none => simp only [scan_inbox, hg] at hs; exact absurd hs (by simp)
  | some gs =>
    simp only [scan_inbox, hg, Option.map_some', Option.some.injEq] at hs
    subst hs
    obtain ⟨p, hp, hps⟩ := List.mem_map.mp hm
    obtain ⟨k, ms⟩ := p
    have hemail : s.email = k := by rw [← hps]; rfl
    have hcount : s.message_count = ms.length := by rw [← hps]; rfl
    rw [hcount, hemail]
    rw [← group_member_filter l gs hg k ms hp]

/-! Claim theorems. -/

/-- Claim C1 (counterexample): the claim "bracket-delimited URL extraction only
accepts HTTPS URLs, so a header whose URLs are all http:// resolves to None" is
false: the source regex is `<(https?://[^>]+)>`, so the http:// URL of the
header "<http://x/u>" is extracted and resolution yields HttpLink without the
one-click post header and OneClick with it — never None. -/
theorem resolve_accepts_http_counterexample :
    parse_list_unsubscribe "<http://x/u>" = ["http://x/u"]
    ∧ resolve_unsubscribe (some "<http://x/u>") none = UnsubscribeMethod.HttpLink "http://x/u"
    ∧ resolve_unsubscribe (some "<http://x/u>") none ≠ UnsubscribeMethod.None
    ∧ resolve_unsubscribe (some "<http://x/u>") (some "List-Unsubscribe=One-Click")
        = UnsubscribeMethod.OneClick "http://x/u" := by decide

/-- Claim C1 (amended): the URL extraction accepts http:// as well as https://
URLs; for every List-Unsubscribe header whose bracket-delimited URLs are all
http:// (and non-empty), resolution yields HttpLink on the first URL without the
one-click post flag and OneClick on it with the flag — never None. -/
theorem resolve_all_http_urls_amended (lu : String) (lup : Option String)
    (u : String) (rest : List String)
    (hurls : parse_list_unsubscribe lu = u :: rest)
    (_hhttp : ∀ v ∈ u :: rest, "http://".toList.isPrefixOf v.toList = true) :
    resolve_unsubscribe (some lu) lup =
      (if detect_one_click lup then UnsubscribeMethod.OneClick u
       else UnsubscribeMethod.HttpLink u)
    ∧ resolve_unsubscribe (some lu) lup ≠ UnsubscribeMethod.None := by
  cases hoc : detect_one_click lup <;>
    simp [resolve_unsubscribe, unsubscribe_urls_of, hurls, hoc]

/-- Claim C1 (witness): the amended theorem applied to the concrete all-http
header "<http://a.example/unsub>" with no post header. -/
theorem resolve_all_http_urls_amended_witness :
    resolve_unsubscribe (some "<http://a.example/unsub>") none
      = UnsubscribeMethod.HttpLink "http://a.example/unsub"
    ∧ resolve_unsubscribe (some "<http://a.example/unsub>") none ≠ UnsubscribeMethod.None := by
  have h := resolve_all_http_urls_amended "<http://a.example/unsub>" none
    "http://a.example/unsub" [] (by decide) (by decide)
  exact ⟨by rw [h.1]; decide, h.2⟩

/-- Claim C2: without the List-Unsubscribe header the heuristic score is capped
at 0.5 for every email and message count; and with no matching keyword and more
than 30 messages it is exactly 0.5. -/
theorem calculate_heuristic_score_capped_without_header (email : String) (message_count : ℕ) :
    calculate_heuristic_score email false message_count ≤ 1/2 ∧
    ((newsletter_patterns.any fun p => str_contains (lower_str email) p) = false →
      30 < message_count →
      calculate_heuristic_score email false message_count = 1/2) := by
  constructor
  · by_cases hp : (newsletter_patterns.any fun p => str_contains (lower_str email) p) = true <;>
    by_cases h10 : 10 < message_count <;>
    by_cases h30 : 30 < message_count <;>
    · simp only [calculate_heuristic_score, hp, h10, h30]
      norm_num
  · intro hp h30
    have h10 : 10 < message_count := by omega
    simp only [calculate_heuristic_score, hp, h10, h30]
    norm_num

/-- Claim C2 (witness): the personal address "jane@family.com" (no keyword
match) with 50 messages and no unsubscribe header scores exactly 0.5, hence at
most 0.5. -/
theorem calculate_heuristic_score_capped_without_header_witness :
    calculate_heuristic_score "jane@family.com" false 50 = 1/2
    ∧ calculate_heuristic_score "jane@family.com" false 50 ≤ 1/2 := by
  have h := calculate_heuristic_score_capped_without_header "jane@family.com" 50
  exact ⟨h.2 (by decide) (by decide), h.1⟩

/-- Claim C3 (counterexample): the claim "resolved_method is order-independent"
is false: the same two headers from sender a@b.c, permuted, resolve to HttpLink
in one order and None in the other, because `scan_inbox` reads the List-Unsubscribe
headers of the first-seen message of the group. -/
theorem scan_inbox_resolved_method_order_dependent :
    List.Perm [msgWithUnsub, msgNoUnsub] [msgNoUnsub, msgWithUnsub]
    ∧ (scan_inbox [msgWithUnsub, msgNoUnsub]).map
        (fun ss => ss.map fun s => (s.email, s.unsubscribe_method))
        = some [("a@b.c", UnsubscribeMethod.HttpLink "https://x/u")]
    ∧ (scan_inbox [msgNoUnsub, msgWithUnsub]).map
        (fun ss => ss.map fun s => (s.email, s.unsubscribe_method))
        = some [("a@b.c", UnsubscribeMethod.None)] := by
  refine ⟨by decide, by decide, by decide⟩

/-- Claim C3 (amended): aggregation is order-independent for message_count (but
not for resolved_method): for permuted inputs on which `scan_inbox` completes,
senders with the same normalized email have the same message_count. -/
theorem scan_inbox_message_count_order_invariant
    (l l' : List MessageHeader) (hperm : l.Perm l')
    (ss ss' : List SenderInfo) (hs : scan_inbox l = some ss) (hs' : scan_inbox l' = some ss')
    (s s' : SenderInfo) (hmem : s ∈ ss) (hmem' : s' ∈ ss') (hemail : s.email = s'.email) :
    s.message_count = s'.message_count := by
  rw [scan_member_count l ss hs s hmem, scan_member_count l' ss' hs' s' hmem', hemail]
  exact List.Perm.length_eq (hperm.filter _)

/-- Claim C3 (witness): the invariance theorem applied to the two concrete
orders of the counterexample pair. -/
theorem scan_inbox_message_count_order_invariant_witness :
    (sender_from_group "a@b.c" [msgWithUnsub, msgNoUnsub]).message_count
      = (sender_from_group "a@b.c" [msgNoUnsub, msgWithUnsub]).message_count :=
  scan_inbox_message_count_order_invariant
    [msgWithUnsub, msgNoUnsub] [msgNoUnsub, msgWithUnsub] (by decide)
    [sender_from_group "a@b.c" [msgWithUnsub, msgNoUnsub]]
    [sender_from_group "a@b.c" [msgNoUnsub, msgWithUnsub]]
    rfl rfl _ _ (by simp) (by simp) rfl

/-- Claim C4: per-message retry and drop semantics of `batch_get_headers` — the
sleeps are always a prefix of [100, 200, 400] (at most 3 retries with those
delays, in order); a non-transient first failure is dropped with no retry; four
consecutive transient failures sleep exactly 100, 200, 400 ms and are dropped;
a dropped message contributes nothing to the result; and the batch always
returns Ok with a partial result, never an error. -/
theorem batch_get_headers_retry_semantics (attempt_of : ℕ → FetchOutcome)
    (attempts : List (ℕ → FetchOutcome)) :
    (∃ k, k ≤ 3 ∧ (fetch_with_retry attempt_of).2 = [100, 200, 400].take k)
    ∧ (∀ e, attempt_of 0 = .err e → is_transient_err e = false →
        fetch_with_retry attempt_of = (none, []))
    ∧ ((∀ i, i ≤ 3 → ∃ e, attempt_of i = .err e ∧ is_transient_err e = true) →
        fetch_with_retry attempt_of = (none, [100, 200, 400]))
    ∧ ((fetch_with_retry attempt_of).1 = none →
        batch_get_headers (attempt_of :: attempts) = batch_get_headers attempts)
    ∧ (∃ hs, batch_get_headers attempts = Except.ok hs ∧ hs.length ≤ attempts.length) := by
  refine ⟨?_, ?_, ?_, ?_, ?_⟩
  · rcases h0 : attempt_of 0 with h | e0
    · exact ⟨0, by norm_num, by simp [fetch_with_retry, fetch_with_retry_aux, h0]⟩
    · by_cases t0 : is_transient_err e0 = true
      · rcases h1 : attempt_of 1 with h | e1
        · exact ⟨1, by norm_num, by
            simp [fetch_with_retry, fetch_with_retry_aux, h0, t0, h1]⟩
        · by_cases t1 : is_transient_err e1 = true
          · rcases h2 : attempt_of 2 with h | e2
            · exact ⟨2, by norm_num, by
                simp [fetch_with_retry, fetch_with_retry_aux, h0, t0, h1, t1, h2]⟩
            · by_cases t2 : is_transient_err e2 = true
              · exact ⟨3, by norm_num, by
                  rcases h3 : attempt_of 3 with h | e3 <;>
                    simp [fetch_with_retry, fetch_with_retry_aux, h0, t0, h1, t1, h2, t2, h3]⟩
              · exact ⟨2, by norm_num, by
                  simp [fetch_with_retry, fetch_with_retry_aux, h0, t0, h1, t1, h2, t2]⟩
          · exact ⟨1, by norm_num, by
              simp [fetch_with_retry, fetch_with_retry_aux, h0, t0, h1, t1]⟩
      · exact ⟨0, by norm_num, by simp [fetch_with_retry, fetch_with_retry_aux, h0, t0]⟩
  · intro e h0 ht
    simp [fetch_with_retry, fetch_with_retry_aux, h0, ht]
  · intro hall
    obtain ⟨e0, h0, t0⟩ := hall 0 (by norm_num)
    obtain ⟨e1, h1, t1⟩ := hall 1 (by norm_num)
    obtain ⟨e2, h2, t2⟩ := hall 2 (by norm_num)
    obtain ⟨e3, h3, t3⟩ := hall 3 (by norm_num)
    simp [fetch_with_retry, fetch_with_retry_aux, h0, t0, h1, t1, h2, t2, h3, t3]
  · intro h1
    simp [batch_get_headers, h1]
  · exact ⟨_, rfl, List.length_filterMap_le _ _⟩

/-- Claim C4 (witness): a message whose first attempt fails with the
non-transient error "401 Unauthorized" is dropped without retries, and the
one-message batch still returns Ok. -/
theorem batch_get_headers_retry_semantics_witness :
    fetch_with_retry oracleFatal = (none, [])
    ∧ ∃ hs, batch_get_headers [oracleFatal] = Except.ok hs ∧ hs.length ≤ 1 := by
  have h := batch_get_headers_retry_semantics oracleFatal [oracleFatal]
  exact ⟨h.2.1 "401 Unauthorized" rfl (by decide), h.2.2.2.2⟩

/-- Claim C5: with the List-Unsubscribe header, a matching keyword and more than
30 messages, all bonuses stack additively: the score is exactly
0.5 + 0.3 + 0.2 + 0.3 = 1.3 > 1.0 (the keyword bonus is added once no matter
how many keywords match, since the source tests `any` once). -/
theorem calculate_heuristic_score_keyword_volume_stack (email : String) (message_count : ℕ)
    (hkw : (newsletter_patterns.any fun p => str_contains (lower_str email) p) = true)
    (hcount : 30 < message_count) :
    calculate_heuristic_score email true message_count = 13/10 ∧ (1 : ℚ) < 13/10 := by
  have h10 : 10 < message_count := by omega
  constructor
  · simp only [calculate_heuristic_score, hkw, h10, hcount]
    norm_num
  · norm_num

/-- Claim C5 (witness): "newsletter-noreply@example.com" matches two keywords yet
scores exactly 1.3 with 35 messages and the unsubscribe header. -/
theorem calculate_heuristic_score_keyword_volume_stack_witness :
    calculate_heuristic_score "newsletter-noreply@example.com" true 35 = 13/10
    ∧ (1 : ℚ) < 13/10 :=
  calculate_heuristic_score_keyword_volume_stack "newsletter-noreply@example.com" 35
    (by decide) (by decide)

/-- Claim C6: whenever List-Unsubscribe-Post case-insensitively contains
"one-click" and at least one URL is extracted from List-Unsubscribe, resolution
yields OneClick with the first extracted URL. -/
theorem resolve_unsubscribe_one_click_priority (lu : String) (lup : Option String)
    (u : String) (rest : List String)
    (hoc : detect_one_click lup = true)
    (hurls : parse_list_unsubscribe lu = u :: rest) :
    resolve_unsubscribe (some lu) lup = UnsubscribeMethod.OneClick u := by
  simp [resolve_unsubscribe, unsubscribe_urls_of, hurls, hoc]

/-- Claim C6 (witness): the spec's concrete instance
resolve("<https://x/u>", "List-Unsubscribe=One-Click") = OneClick "https://x/u". -/
theorem resolve_unsubscribe_one_click_priority_witness :
    resolve_unsubscribe (some "<https://x/u>") (some "List-Unsubscribe=One-Click")
      = UnsubscribeMethod.OneClick "https://x/u" :=
  resolve_unsubscribe_one_click_priority "<https://x/u>" (some "List-Unsubscribe=One-Click")
    "https://x/u" [] (by decide) (by decide)

/-- Claim C7: when the one-click flag is detected but no URL is extracted, the
resolver degrades to None (never Mailto or HttpLink), returned as an ordinary
value of the total function `resolve_unsubscribe`; and resolve(None, None) is
None. -/
theorem resolve_unsubscribe_degrades_to_none (lu lup : Option String)
    (hoc : detect_one_click lup = true)
    (hurls : unsubscribe_urls_of lu = []) :
    resolve_unsubscribe lu lup = UnsubscribeMethod.None
    ∧ resolve_unsubscribe none none = UnsubscribeMethod.None := by
  constructor
  · simp [resolve_unsubscribe, hurls, hoc]
  · decide

/-- Claim C7 (witness): a mailto-only header with the one-click flag still
resolves to None (the mailto branch is unreachable under the flag). -/
theorem resolve_unsubscribe_degrades_to_none_witness :
    resolve_unsubscribe (some "<mailto:a@b>") (some "list-unsubscribe=one-click")
      = UnsubscribeMethod.None
    ∧ resolve_unsubscribe none none = UnsubscribeMethod.None :=
  resolve_unsubscribe_degrades_to_none (some "<mailto:a@b>")
    (some "list-unsubscribe=one-click") (by decide) (by decide)

/-- Claim C8: every planned action includes the deletion step; the unsubscribe
step is chosen exactly when the resolved method is OneClick and the block step
exactly when it is not, so the two are mutually exclusive and exhaustive over
the two plan outcomes (HttpLink and Mailto senders are blocked). -/
theorem plan_action_policy (s : SenderInfo) :
    ((plan_action s).action_type.includes_delete = true)
    ∧ ((plan_action s).action_type.includes_unsubscribe = s.unsubscribe_method.is_one_click)
    ∧ ((plan_action s).action_type.includes_block = !s.unsubscribe_method.is_one_click)
    ∧ ((plan_action s).action_type.includes_block
        = !(plan_action s).action_type.includes_unsubscribe) := by
  cases hoc : s.unsubscribe_method.is_one_click <;>
    simp [plan_action, hoc, ActionType.includes_delete, ActionType.includes_unsubscribe,
      ActionType.includes_block]

/-- Claim C9 (counterexample): the claim "for every finite list of headers,
group_by_sender returns a map with the key invariant" is false as stated: on the
From field "><" the `extract_email` slice panics (modelled as none), so no map
is returned at all. -/
theorem group_by_sender_panic_counterexample :
    group_by_sender [msgGtBeforeLt] = none := by decide

/-- Claim C9 (amended): for every list of headers whose From fields do not
trigger the `extract_email` slice panic, `group_by_sender` returns a map in
which keys are distinct, no group is empty, each group is exactly the input
sublist with that normalized email (so message_count equals the number of such
headers), the group sizes sum to the input length, and every input header
appears in the group of its own normalized email. -/
theorem group_by_sender_key_invariant (headers : List MessageHeader)
    (hok : ∀ h ∈ headers, (extract_email h.fromAddr).isSome = true) :
    ∃ gs, group_by_sender headers = some gs
      ∧ (gs.map Prod.fst).Nodup
      ∧ (∀ p ∈ gs, p.2 ≠ [])
      ∧ (∀ k ms, (k, ms) ∈ gs →
          ms = headers.filter fun h => extract_email h.fromAddr == some k)
      ∧ total_size gs = headers.length
      ∧ (∀ h ∈ headers, ∀ k, extract_email h.fromAddr = some k →
          ∃ ms, (k, ms) ∈ gs ∧ h ∈ ms) := by
  obtain ⟨gs, hg⟩ := group_aux_some headers [] hok
  refine ⟨gs, hg, group_aux_nodup headers [] gs hg (by simp),
    group_aux_nonempty headers [] gs hg (by simp),
    fun k ms hm => group_member_filter headers gs hg k ms hm, ?_, ?_⟩
  · have := group_aux_size headers [] gs hg
    simpa [total_size] using this
  · intro h hm k hk
    have Hd := group_aux_lookup headers [] gs hg k
    have hfil : h ∈ headers.filter fun x => extract_email x.fromAddr == some k := by
      simp [List.mem_filter, hm, hk]
    cases hlk : lookup_group k gs with
    | none =>
      rw [hlk] at Hd
      simp only [lookup_group, Option.getD_none, List.nil_append] at Hd
      rw [← Hd] at hfil
      exact absurd hfil (List.not_mem_nil _)
    | some ms =>
      have hmem := mem_of_lookup gs k ms hlk
      refine ⟨ms, hmem, ?_⟩
      have := group_member_filter headers gs hg k ms hmem
      rw [this]
      exact hfil

/-- Claim C9 (witness): the key invariant evaluated on three concrete headers
from two senders. -/
theorem group_by_sender_key_invariant_witness :
    ∃ gs, group_by_sender demoHeaders = some gs
      ∧ (gs.map Prod.fst).Nodup ∧ total_size gs = demoHeaders.length := by
  obtain ⟨gs, h1, h2, _, _, h5, _⟩ := group_by_sender_key_invariant demoHeaders (by decide)
  exact ⟨gs, h1, h2, h5⟩

/-- Claim C10: `extract_email` is not total — on a From string whose first `>`
precedes its first `<` (a legal quoted display name) the Rust byte slice
`from[start+1..end]` has end < start + 1 and panics, modelled here as `none`;
a well-formed From string extracts normally. -/
theorem extract_email_panics_on_gt_before_lt :
    extract_email "\"A > B\" <a@b.c>" = none
    ∧ extract_email "John Doe <john@example.com>" = some "john@example.com" := by decide
